import Mathlib

/-!
Verification of the micro-checkpointing (MC) core and the RDMA transport
of this repository, over a shallow embedding of the two source files
`migration-checkpoint.c` and the unnamed RDMA transport file.

Conventions of the embedding:
* machine integers are modelled as `Nat` (unsigned) or `Int` (signed
  results / error codes), with truncated `Nat` subtraction where the C
  source subtracts unsigned values that cannot underflow along the
  verified paths;
* the doubly linked slab list of `migration-checkpoint.c` is modelled as
  a `List` of slabs together with the index of the current slab
  (`curr_slab`); `head` is the slab at index 0, `tail` the last element;
* external collaborators (sockets, netlink, the hypervisor save/load
  calls, libibverbs) are modelled as oracle inputs: their return values
  are parameters of the embedded functions.
-/

namespace MCheck

/-- `MC_SLAB_BUFFER_SIZE` from migration-checkpoint.c. -/
def MC_SLAB_BUFFER_SIZE : Nat := 5 * 1024 * 1024

/-- One slab of the staging buffer (`struct MCSlab`).  The field `buf`
models the filled portion `buf[0 .. size)` of the fixed 5 MiB buffer, so
the C field `size` is `buf.length`; `read` is the consumed cursor. -/
structure MCSlab where
  buf : List Nat
  read : Nat
deriving DecidableEq

/-- The C field `slab->size` (number of valid bytes in the slab). -/
def MCSlab.size (s : MCSlab) : Nat := s.buf.length

/-- The unread bytes `buf[read .. size)` of a slab. -/
def MCSlab.avail (s : MCSlab) : List Nat := s.buf.drop s.read

/-- A slab with `size = 0` and `read = 0`. -/
def emptySlab : MCSlab := ⟨[], 0⟩

/-- `struct MCParams`: the slab ring.  `slabs` is the linked list from
`head` to `tail` in order; `currIdx` is the position of `curr_slab`
(`currIdx = slabs.length` models a `NULL` current slab, which the C code
reaches when a read walks off the end of the ring). -/
structure MCParams where
  slabs : List MCSlab
  currIdx : Nat
  slab_total : Nat
  nb_slabs : Nat
  strikes : Nat
deriving DecidableEq

/-- The slab `mc->curr_slab` points at. -/
def MCParams.currSlab (mc : MCParams) : MCSlab := mc.slabs.getD mc.currIdx emptySlab

/-- `mc_slab_next` (migration-checkpoint.c:771-793): move to the next
slab, allocating a fresh one at the tail if there is none; in both cases
the target slab gets `size = 0` and `read = 0`. -/
def mc_slab_next (mc : MCParams) : MCParams :=
  if mc.currIdx + 1 < mc.slabs.length then
    { mc with currIdx := mc.currIdx + 1,
              slabs := mc.slabs.set (mc.currIdx + 1) emptySlab }
  else
    { mc with currIdx := mc.currIdx + 1,
              slabs := mc.slabs ++ [emptySlab],
              nb_slabs := mc.nb_slabs + 1 }

/-- The loop of `mc_put_buffer` (migration-checkpoint.c:948-976).  Each
iteration copies `put = min(MC_SLAB_BUFFER_SIZE - slab->size, len)` bytes
into the current slab and, if bytes remain, advances via `mc_slab_next`.
The C loop always terminates because an advanced-to slab is empty; the
`fuel` argument only makes the recursion structural, and
`mc_put_buffer_loop_total` below shows `2 * len + 2` fuel always
suffices. -/
def mc_put_buffer_loop : Nat → MCParams → List Nat → Option MCParams
  | _, mc, [] => some mc
  | 0, _, _ :: _ => none
  | fuel + 1, mc, b :: bs =>
    let data := b :: bs
    let slab := mc.currSlab
    let put := min (MC_SLAB_BUFFER_SIZE - slab.size) data.length
    let mc' := { mc with
                  slabs := mc.slabs.set mc.currIdx { slab with buf := slab.buf ++ data.take put },
                  slab_total := mc.slab_total + put }
    let rest := data.drop put
    if rest.isEmpty then some mc'
    else mc_put_buffer_loop fuel (mc_slab_next mc') rest

/-- `mc_put_buffer` (migration-checkpoint.c:948-976).  Returns the updated
ring and the return value of the C function, which is always the full
input length (the put path never short-writes). -/
def mc_put_buffer (mc : MCParams) (data : List Nat) : Option (MCParams × Nat) :=
  (mc_put_buffer_loop (2 * data.length + 2) mc data).map (fun m => (m, data.length))

/-- The loop of `mc_get_buffer` (migration-checkpoint.c:917-946) acting on
the sub-list of slabs from `curr_slab` on.  Returns the bytes produced,
the updated sub-list, and how many times the cursor advanced.  Each
iteration reads `get = min(slab->size - slab->read, len)` bytes and, if
bytes are still wanted, advances to the next slab (walking off the end of
the ring leaves a `NULL` cursor and stops the loop). -/
def mc_get_buffer_loop : List MCSlab → Nat → List Nat × List MCSlab × Nat
  | [], _ => ([], [], 0)
  | s :: rest, len =>
    if len = 0 then ([], s :: rest, 0)
    else
      let g := min (s.size - s.read) len
      let bytes := (s.buf.drop s.read).take g
      let s' : MCSlab := { s with read := s.read + g }
      if len - g = 0 then (bytes, s' :: rest, 0)
      else
        let r := mc_get_buffer_loop rest (len - g)
        (bytes ++ r.1, s' :: r.2.1, r.2.2 + 1)

/-- `mc_get_buffer` (migration-checkpoint.c:917-946): read up to `size`
bytes starting from `curr_slab` at its `read` cursor.  Returns the updated
ring, the bytes, and the C return value `size - len` (bytes produced). -/
def mc_get_buffer (mc : MCParams) (size : Nat) : MCParams × List Nat × Nat :=
  let r := mc_get_buffer_loop (mc.slabs.drop mc.currIdx) size
  ({ mc with slabs := mc.slabs.take mc.currIdx ++ r.2.1,
             currIdx := mc.currIdx + r.2.2,
             slab_total := mc.slab_total - r.1.length },
   r.1, r.1.length)

/-- The tail-freeing loop of `mc_slab_start` (migration-checkpoint.c:551-558):
pop `n` slabs off the tail of the list. -/
def popSlabTail : Nat → List MCSlab → List MCSlab
  | 0, l => l
  | n + 1, l => popSlabTail n l.dropLast

/-- `mc_slab_start` (migration-checkpoint.c:540-581).  First the elastic
sizing policy: with at least two slabs, if `strikes >= max_strikes` free
`MAX(1, (nb_slabs - 1) / 2)` slabs from the tail and reset `strikes`;
otherwise if `slab_total <= (nb_slabs - 1) * MC_SLAB_BUFFER_SIZE` record a
strike; otherwise (and also whenever fewer than two slabs exist) reset a
nonzero strike counter to zero.  Then reset the ring for the next
checkpoint: `slab_total = 0`, `head->read = 0`, `head->size = 0`,
`curr_slab = head`. -/
def mc_slab_start (maxStrikes : Nat) (mc : MCParams) : MCParams :=
  let mc1 :=
    if 2 ≤ mc.nb_slabs then
      if maxStrikes ≤ mc.strikes then
        let nbFree := max 1 ((mc.nb_slabs - 1) / 2)
        { mc with strikes := 0,
                  slabs := popSlabTail nbFree mc.slabs,
                  nb_slabs := mc.nb_slabs - nbFree }
      else if mc.slab_total ≤ (mc.nb_slabs - 1) * MC_SLAB_BUFFER_SIZE then
        { mc with strikes := mc.strikes + 1 }
      else if mc.strikes ≠ 0 then { mc with strikes := 0 } else mc
    else if mc.strikes ≠ 0 then { mc with strikes := 0 } else mc
  { mc1 with
      slab_total := 0,
      slabs := match mc1.slabs with
               | [] => []
               | h :: t => { h with buf := [], read := 0 } :: t,
      currIdx := 0 }

/-- Concatenation of the unread bytes of a list of slabs. -/
def listAvail (l : List MCSlab) : List Nat := (l.map MCSlab.avail).flatten

/-- Sum of `slab->size` over a list of slabs. -/
def sizeSum (l : List MCSlab) : Nat := (l.map MCSlab.size).sum

/-- Sum of `slab->size - slab->read` (unread byte count) over slabs. -/
def unreadSum (l : List MCSlab) : Nat := (l.map (fun s => s.size - s.read)).sum

lemma getD_append_cons (pre : List MCSlab) (c : MCSlab) (post : List MCSlab) (d : MCSlab) :
    (pre ++ c :: post).getD pre.length d = c := by
  induction pre with
  | nil => rfl
  | cons p ps ih => simpa [List.getD] using ih

lemma set_append_cons (pre : List MCSlab) (c x : MCSlab) (post : List MCSlab) :
    (pre ++ c :: post).set pre.length x = pre ++ x :: post := by
  induction pre with
  | nil => rfl
  | cons p ps ih => simp [List.set, ih]

lemma avail_length (s : MCSlab) : s.avail.length = s.size - s.read := by
  simp [MCSlab.avail, MCSlab.size]

lemma avail_append_of_read_le (s : MCSlab) (t : List Nat) (h : s.read ≤ s.size) :
    MCSlab.avail { s with buf := s.buf ++ t } = s.avail ++ t := by
  simp only [MCSlab.avail]
  exact List.drop_append_of_le_length h

lemma listAvail_append (l₁ l₂ : List MCSlab) :
    listAvail (l₁ ++ l₂) = listAvail l₁ ++ listAvail l₂ := by
  simp [listAvail]

lemma listAvail_cons (s : MCSlab) (l : List MCSlab) :
    listAvail (s :: l) = s.avail ++ listAvail l := by
  simp [listAvail]

lemma listAvail_singleton (s : MCSlab) : listAvail [s] = s.avail := by
  simp [listAvail]

lemma emptySlab_avail : emptySlab.avail = [] := rfl

lemma unreadSum_cons (s : MCSlab) (l : List MCSlab) :
    unreadSum (s :: l) = (s.size - s.read) + unreadSum l := by
  simp [unreadSum]

lemma unreadSum_eq_length_listAvail (l : List MCSlab) :
    unreadSum l = (listAvail l).length := by
  induction l with
  | nil => rfl
  | cons s t ih => simp [unreadSum_cons, listAvail_cons, ih, avail_length]

lemma mc_slab_next_cons (pre : List MCSlab) (curr p : MCSlab) (ps : List MCSlab)
    (tot nb st : Nat) :
    mc_slab_next ⟨pre ++ curr :: p :: ps, pre.length, tot, nb, st⟩
      = ⟨(pre ++ [curr]) ++ emptySlab :: ps, (pre ++ [curr]).length, tot, nb, st⟩ := by
  have hcond : pre.length + 1 < (pre ++ curr :: p :: ps).length := by
    simp
  have hset : (pre ++ curr :: p :: ps).set (pre.length + 1) emptySlab
      = (pre ++ [curr]) ++ emptySlab :: ps := by
    have h1 : pre ++ curr :: p :: ps = (pre ++ [curr]) ++ p :: ps := by simp
    have h2 : (pre ++ [curr]).length = pre.length + 1 := by simp
    rw [h1, ← h2, set_append_cons]
  simp [mc_slab_next, hcond, hset]

lemma mc_slab_next_nil (pre : List MCSlab) (curr : MCSlab) (tot nb st : Nat) :
    mc_slab_next ⟨pre ++ curr :: [], pre.length, tot, nb, st⟩
      = ⟨(pre ++ [curr]) ++ emptySlab :: [], (pre ++ [curr]).length, tot, nb + 1, st⟩ := by
  have hcond : ¬ (pre.length + 1 < (pre ++ curr :: ([] : List MCSlab)).length) := by
    simp
  simp [mc_slab_next, hcond]

lemma mc_put_buffer_loop_cons (fuel : Nat) (pre : List MCSlab) (curr : MCSlab)
    (post : List MCSlab) (tot nb st : Nat) (b : Nat) (bs : List Nat) :
    mc_put_buffer_loop (fuel + 1) ⟨pre ++ curr :: post, pre.length, tot, nb, st⟩ (b :: bs)
      = (let put := min (MC_SLAB_BUFFER_SIZE - curr.size) (b :: bs).length
         let rest := (b :: bs).drop put
         let mc' : MCParams :=
           ⟨pre ++ { curr with buf := curr.buf ++ (b :: bs).take put } :: post,
            pre.length, tot + put, nb, st⟩
         if rest.isEmpty then some mc' else mc_put_buffer_loop fuel (mc_slab_next mc') rest) := by
  simp only [mc_put_buffer_loop, MCParams.currSlab]
  simp only [getD_append_cons, set_append_cons]

/-- Characterisation of the `mc_put_buffer` loop on a ring decomposed as
`pre ++ curr :: post` with the write cursor on `curr`: with enough fuel
the loop succeeds, appends exactly the input bytes after the unread
content of the prefix, adds the input length to `slab_total`, and leaves
a suffix of the original `post` untouched beyond the new cursor. -/
lemma mc_put_buffer_loop_spec :
    ∀ (fuel : Nat) (data : List Nat) (pre : List MCSlab) (curr : MCSlab)
      (post : List MCSlab) (tot nb st : Nat),
      curr.read ≤ curr.size →
      2 * data.length + (if MC_SLAB_BUFFER_SIZE ≤ curr.size then 1 else 0) < fuel →
      ∃ (pre2 : List MCSlab) (curr2 : MCSlab) (post2 : List MCSlab) (nb2 k : Nat),
        mc_put_buffer_loop fuel ⟨pre ++ curr :: post, pre.length, tot, nb, st⟩ data
          = some ⟨pre2 ++ curr2 :: post2, pre2.length, tot + data.length, nb2, st⟩ ∧
        listAvail pre2 ++ curr2.avail = listAvail pre ++ curr.avail ++ data ∧
        curr2.read ≤ curr2.size ∧
        post2 = post.drop k := by
  intro fuel
  induction fuel with
  | zero =>
    intro data pre curr post tot nb st hr hb
    omega
  | succ fuel ih =>
    intro data pre curr post tot nb st hr hb
    match data with
    | [] =>
      exact ⟨pre, curr, post, nb, 0, by simp [mc_put_buffer_loop], by simp, hr, rfl⟩
    | b :: bs =>
      rw [mc_put_buffer_loop_cons]
      simp only []
      set D : List Nat := b :: bs with hD
      set put := min (MC_SLAB_BUFFER_SIZE - curr.size) D.length with hput
      set curr' : MCSlab := { curr with buf := curr.buf ++ D.take put } with hcurr'
      have hDlen : 0 < D.length := by simp [hD]
      have hput_le : put ≤ D.length := by omega
      have hrest_len : (D.drop put).length = D.length - put := by
        simp
      have hcurr'_avail : curr'.avail = curr.avail ++ D.take put :=
        avail_append_of_read_le curr (D.take put) hr
      have hcurr'_read : curr'.read ≤ curr'.size := by
        simp only [hcurr', MCSlab.size, List.length_append]
        exact le_trans hr (Nat.le_add_right _ _)
      by_cases hre : (D.drop put).isEmpty
      · -- the whole input fits in the current slab
        have hput_eq : put = D.length := by
          have := List.isEmpty_iff.mp hre
          have : D.length - put = 0 := by rw [← hrest_len, this]; rfl
          omega
        have htake : D.take put = D := by
          simp [hput_eq]
        refine ⟨pre, curr', post, nb, 0, ?_, ?_, hcurr'_read, rfl⟩
        · simp [hre, hput_eq]
        · rw [hcurr'_avail, htake, List.append_assoc]
      · -- bytes remain: advance to the next slab and recurse
        rw [if_neg hre]
        have hrest_ne : D.length - put ≠ 0 := by
          intro h0
          apply hre
          rw [List.isEmpty_iff, ← List.length_eq_zero, hrest_len, h0]
        -- fuel accounting: either the current slab was full (put = 0) or
        -- at least one byte was written
        have hfuel : 2 * (D.drop put).length + (if MC_SLAB_BUFFER_SIZE ≤ emptySlab.size then 1 else 0) < fuel := by
          have hcap : ¬ (MC_SLAB_BUFFER_SIZE ≤ emptySlab.size) := by
            simp [emptySlab, MCSlab.size, MC_SLAB_BUFFER_SIZE]
          rw [if_neg hcap, hrest_len]
          by_cases hfull : MC_SLAB_BUFFER_SIZE ≤ curr.size
          · have : put = 0 := by omega
            rw [if_pos hfull] at hb
            omega
          · have : 1 ≤ put := by omega
            rw [if_neg hfull] at hb
            omega
        match hpost : post with
        | p :: ps =>
          rw [mc_slab_next_cons]
          obtain ⟨pre2, curr2, post2, nb2, k, hres, havail, hread2, hpost2⟩ :=
            ih (D.drop put) (pre ++ [curr']) emptySlab ps (tot + put) nb st (by simp [emptySlab]) hfuel
          refine ⟨pre2, curr2, post2, nb2, k + 1, ?_, ?_, hread2, ?_⟩
          · have harith : tot + put + (D.drop put).length = tot + D.length := by
              rw [hrest_len]; omega
            rw [hres, harith]
          · rw [havail, listAvail_append, listAvail_singleton, hcurr'_avail, emptySlab_avail]
            simp [List.append_assoc, List.take_append_drop]
          · simpa using hpost2
        | [] =>
          rw [mc_slab_next_nil]
          obtain ⟨pre2, curr2, post2, nb2, k, hres, havail, hread2, hpost2⟩ :=
            ih (D.drop put) (pre ++ [curr']) emptySlab [] (tot + put) (nb + 1) st (by simp [emptySlab]) hfuel
          refine ⟨pre2, curr2, post2, nb2, k, ?_, ?_, hread2, ?_⟩
          · have harith : tot + put + (D.drop put).length = tot + D.length := by
              rw [hrest_len]; omega
            rw [hres, harith]
          · rw [havail, listAvail_append, listAvail_singleton, hcurr'_avail, emptySlab_avail]
            simp [List.append_assoc, List.take_append_drop]
          · simpa using hpost2

/-- `mc_put_buffer` on a decomposed ring: the fuel `2 * len + 2` always
suffices, the write succeeds, returns the full input length, appends the
input after the unread prefix content, and adds the length to
`slab_total`. -/
lemma mc_put_buffer_spec (data : List Nat) (pre : List MCSlab) (curr : MCSlab)
    (post : List MCSlab) (tot nb st : Nat) (hr : curr.read ≤ curr.size) :
    ∃ (pre2 : List MCSlab) (curr2 : MCSlab) (post2 : List MCSlab) (nb2 k : Nat),
      mc_put_buffer ⟨pre ++ curr :: post, pre.length, tot, nb, st⟩ data
        = some (⟨pre2 ++ curr2 :: post2, pre2.length, tot + data.length, nb2, st⟩, data.length) ∧
      listAvail pre2 ++ curr2.avail = listAvail pre ++ curr.avail ++ data ∧
      curr2.read ≤ curr2.size ∧
      post2 = post.drop k := by
  have hb : 2 * data.length + (if MC_SLAB_BUFFER_SIZE ≤ curr.size then 1 else 0)
      < 2 * data.length + 2 := by
    by_cases h : MC_SLAB_BUFFER_SIZE ≤ curr.size <;> simp [h]
  obtain ⟨pre2, curr2, post2, nb2, k, hres, havail, hread2, hpost2⟩ :=
    mc_put_buffer_loop_spec (2 * data.length + 2) data pre curr post tot nb st hr hb
  exact ⟨pre2, curr2, post2, nb2, k, by simp [mc_put_buffer, hres], havail, hread2, hpost2⟩

/-- The `mc_get_buffer` loop produces exactly the first `len` unread
bytes of the slabs it walks, and decreases the unread byte count of
those slabs by exactly the number of bytes produced. -/
lemma mc_get_buffer_loop_spec :
    ∀ (slabs : List MCSlab) (len : Nat),
      (mc_get_buffer_loop slabs len).1 = (listAvail slabs).take len ∧
      unreadSum (mc_get_buffer_loop slabs len).2.1 + (mc_get_buffer_loop slabs len).1.length
        = unreadSum slabs := by
  intro slabs
  induction slabs with
  | nil =>
    intro len
    simp [mc_get_buffer_loop, listAvail, unreadSum]
  | cons s rest ih =>
    intro len
    by_cases hlen : len = 0
    · simp [mc_get_buffer_loop, hlen]
    · have hxa : s.avail.length = s.buf.length - s.read := by
        simp [MCSlab.avail]
      have hdrop : s.buf.drop s.read = s.avail := rfl
      by_cases hdone : len - min (s.size - s.read) len = 0
      · -- everything wanted is available in the current slab
        have hmin : min (s.size - s.read) len = len := by
          simp only [MCSlab.size] at hdone ⊢; omega
        have hlen_le : len ≤ s.avail.length := by
          simp only [MCSlab.size] at hmin; omega
        constructor
        · simp only [mc_get_buffer_loop, if_neg hlen, if_pos hdone, hdrop]
          rw [hmin, listAvail_cons, List.take_append_of_le_length hlen_le]
        · simp only [mc_get_buffer_loop, if_neg hlen, if_pos hdone, hdrop]
          rw [hmin, unreadSum_cons, unreadSum_cons]
          have hltake : (s.avail.take len).length = len := by
            rw [List.length_take]; omega
          rw [hltake]
          simp only [MCSlab.size]
          omega
      · -- the current slab is drained and the walk continues
        have hmin : min (s.size - s.read) len = s.size - s.read := by
          simp only [MCSlab.size] at hdone ⊢; omega
        have hfull : s.avail.length ≤ len := by
          simp only [MCSlab.size] at hmin; omega
        constructor
        · simp only [mc_get_buffer_loop, if_neg hlen, if_neg hdone, hdrop]
          rw [hmin, listAvail_cons, List.take_append_eq_append_take]
          congr 1
          · rw [List.take_of_length_le (by simp only [MCSlab.size]; omega),
                List.take_of_length_le hfull]
          · rw [(ih _).1]
            congr 1
            simp only [MCSlab.size]
            omega
        · simp only [mc_get_buffer_loop, if_neg hlen, if_neg hdone, hdrop]
          rw [hmin, unreadSum_cons, unreadSum_cons]
          have h2 := (ih (len - (s.size - s.read))).2
          have hln : (s.avail.take (s.size - s.read)).length = s.size - s.read := by
            rw [List.length_take]
            simp only [MCSlab.size]
            omega
          simp only [List.length_append, hln]
          simp only [MCSlab.size] at h2 ⊢
          omega

/-- The canonical ring state right after `mc_slab_start` at the top of a
tick: `curr_slab = head`, `head` empty, `slab_total = 0`; the slabs after
`head` are stale left-overs of earlier ticks with arbitrary contents. -/
def mc_ring_start (rest : List MCSlab) : MCParams :=
  ⟨emptySlab :: rest, 0, 0, rest.length + 1, 0⟩

/-- Write `data` through `mc_put_buffer`, reposition the cursor on `head`
(`mc->curr_slab = mc->head`, as mc_thread and the receiver do before
reading the staged bytes back), then read `data.length` bytes through
`mc_get_buffer`. -/
def mc_roundtrip (data : List Nat) (rest : List MCSlab) : Option (List Nat) :=
  match mc_put_buffer (mc_ring_start rest) data with
  | none => none
  | some (mc1, _) => some (mc_get_buffer { mc1 with currIdx := 0 } data.length).2.1

/-- C2: for every byte sequence B of length L, writing B through the slab
ring (`mc_put_buffer`) and then reading L bytes back from the head
(`mc_get_buffer`) yields exactly B, regardless of how many slab
boundaries the sequence crosses (here: regardless of how many stale slabs
trail the head and how many fresh slabs the write has to allocate). -/
theorem mc_slab_ring_roundtrip (data : List Nat) (rest : List MCSlab) :
    mc_roundtrip data rest = some data := by
  obtain ⟨pre2, curr2, post2, nb2, k, hput, havail, hread2, hpost2⟩ :=
    mc_put_buffer_spec data [] emptySlab rest 0 (rest.length + 1) 0 (by simp [emptySlab])
  simp only [List.nil_append, List.length_nil] at hput
  have havail2 : listAvail pre2 ++ curr2.avail = data := by
    simpa [listAvail, emptySlab, MCSlab.avail] using havail
  unfold mc_roundtrip mc_ring_start
  rw [hput]
  have hbytes := (mc_get_buffer_loop_spec (pre2 ++ curr2 :: post2) data.length).1
  simp only [mc_get_buffer, List.drop_zero]
  rw [hbytes, listAvail_append, listAvail_cons, ← List.append_assoc, havail2]
  rw [List.take_left]

lemma unreadSum_append (a b : List MCSlab) :
    unreadSum (a ++ b) = unreadSum a + unreadSum b := by
  simp [unreadSum]

lemma unreadSum_eq_zero (l : List MCSlab) (h : ∀ s ∈ l, s.size ≤ s.read) :
    unreadSum l = 0 := by
  apply List.sum_eq_zero
  intro x hx
  simp only [List.mem_map] at hx
  obtain ⟨s, hs, hxs⟩ := hx
  have := h s hs
  omega

lemma popSlabTail_eq_take :
    ∀ (n : Nat) (l : List MCSlab), n ≤ l.length →
      popSlabTail n l = l.take (l.length - n) := by
  intro n
  induction n with
  | zero =>
    intro l _
    simp [popSlabTail]
  | succ n ih =>
    intro l hn
    have hlen : l.dropLast.length = l.length - 1 := by
      simp
    rw [popSlabTail, ih l.dropLast (by omega), hlen, List.dropLast_eq_take, List.take_take]
    congr 1
    omega

/-- Case analysis of `mc_slab_start`: the post-state always has
`slab_total = 0`, `curr_slab = head`, an emptied head slab followed by a
prefix of the old tail, and the strike/shrink accounting of each guard of
the C code. -/
lemma mc_slab_start_cases (maxStrikes : Nat) (mc : MCParams) (h0 : MCSlab)
    (t0 : List MCSlab) (hsl : mc.slabs = h0 :: t0)
    (hsync : mc.slabs.length = mc.nb_slabs) :
    (mc_slab_start maxStrikes mc).slab_total = 0 ∧
    (mc_slab_start maxStrikes mc).currIdx = 0 ∧
    ∃ t', (mc_slab_start maxStrikes mc).slabs = emptySlab :: t' ∧
      (mc_slab_start maxStrikes mc).nb_slabs = t'.length + 1 ∧
      (∃ m, t' = t0.take m) ∧
      ((2 ≤ mc.nb_slabs ∧ maxStrikes ≤ mc.strikes) →
        (mc_slab_start maxStrikes mc).strikes = 0 ∧
        (mc_slab_start maxStrikes mc).nb_slabs
          = mc.nb_slabs - max 1 ((mc.nb_slabs - 1) / 2)) ∧
      ((2 ≤ mc.nb_slabs ∧ mc.strikes < maxStrikes ∧
          mc.slab_total ≤ (mc.nb_slabs - 1) * MC_SLAB_BUFFER_SIZE) →
        (mc_slab_start maxStrikes mc).strikes = mc.strikes + 1 ∧ t' = t0) ∧
      ((2 ≤ mc.nb_slabs ∧ mc.strikes < maxStrikes ∧
          (mc.nb_slabs - 1) * MC_SLAB_BUFFER_SIZE < mc.slab_total) →
        (mc_slab_start maxStrikes mc).strikes = 0 ∧ t' = t0) ∧
      (¬ 2 ≤ mc.nb_slabs →
        (mc_slab_start maxStrikes mc).strikes = 0 ∧ t' = t0) := by
  have hlen : mc.slabs.length = t0.length + 1 := by rw [hsl]; rfl
  have htake_self : t0 = t0.take t0.length := (List.take_length t0).symm
  by_cases hnb : 2 ≤ mc.nb_slabs
  · by_cases hstr : maxStrikes ≤ mc.strikes
    · -- shrink branch
      have hfree_le : max 1 ((mc.nb_slabs - 1) / 2) ≤ mc.nb_slabs - 1 := by
        have h2 : (mc.nb_slabs - 1) / 2 ≤ mc.nb_slabs - 1 := Nat.div_le_self _ _
        omega
      have hpop : popSlabTail (max 1 ((mc.nb_slabs - 1) / 2)) mc.slabs
          = h0 :: t0.take (mc.slabs.length - max 1 ((mc.nb_slabs - 1) / 2) - 1) := by
        have hx : mc.slabs.length - max 1 ((mc.nb_slabs - 1) / 2)
            = (mc.slabs.length - max 1 ((mc.nb_slabs - 1) / 2) - 1) + 1 := by
          omega
        rw [popSlabTail_eq_take _ mc.slabs (by omega), hx, hsl, List.take_succ_cons]
        simp
      have heq : mc_slab_start maxStrikes mc
          = ⟨emptySlab ::
               t0.take (mc.slabs.length - max 1 ((mc.nb_slabs - 1) / 2) - 1), 0, 0,
             mc.nb_slabs - max 1 ((mc.nb_slabs - 1) / 2), 0⟩ := by
        simp [mc_slab_start, hnb, hstr, hpop, emptySlab]
      rw [heq]
      refine ⟨rfl, rfl,
        t0.take (mc.slabs.length - max 1 ((mc.nb_slabs - 1) / 2) - 1), rfl, ?_,
        ⟨mc.slabs.length - max 1 ((mc.nb_slabs - 1) / 2) - 1, rfl⟩,
        fun _ => ⟨rfl, rfl⟩,
        fun h => absurd h.2.1 (by omega),
        fun h => absurd h.2.1 (by omega),
        fun h => absurd hnb h⟩
      simp only [List.length_take]
      omega
    · by_cases htot : mc.slab_total ≤ (mc.nb_slabs - 1) * MC_SLAB_BUFFER_SIZE
      · -- strike branch
        have heq : mc_slab_start maxStrikes mc
            = ⟨emptySlab :: t0, 0, 0, mc.nb_slabs, mc.strikes + 1⟩ := by
          simp [mc_slab_start, hnb, hstr, htot, hsl, emptySlab]
        rw [heq]
        refine ⟨rfl, rfl, t0, rfl, ?_, ⟨t0.length, htake_self⟩,
          fun h => absurd h.2 hstr, fun _ => ⟨rfl, rfl⟩,
          fun h => absurd h.2.2 (by omega), fun h => absurd hnb h⟩
        simp only []
        omega
      · -- the previous tick filled all slabs: reset strikes
        have heq : mc_slab_start maxStrikes mc
            = ⟨emptySlab :: t0, 0, 0, mc.nb_slabs, 0⟩ := by
          by_cases hs0 : mc.strikes = 0
          · have hms : ¬ maxStrikes = 0 := by omega
            simp [mc_slab_start, hnb, hstr, htot, hsl, hs0, hms, emptySlab]
          · simp [mc_slab_start, hnb, hstr, htot, hsl, hs0, emptySlab]
        rw [heq]
        refine ⟨rfl, rfl, t0, rfl, ?_, ⟨t0.length, htake_self⟩,
          fun h => absurd h.2 hstr, fun h => absurd h.2.2 htot,
          fun _ => ⟨rfl, rfl⟩, fun h => absurd hnb h⟩
        simp only []
        omega
  · -- fewer than two slabs: only the strike reset applies
    have heq : mc_slab_start maxStrikes mc
        = ⟨emptySlab :: t0, 0, 0, mc.nb_slabs, 0⟩ := by
      by_cases hs0 : mc.strikes = 0
      · simp [mc_slab_start, hnb, hsl, hs0, emptySlab]
      · simp [mc_slab_start, hnb, hsl, hs0, emptySlab]
    rw [heq]
    refine ⟨rfl, rfl, t0, rfl, ?_, ⟨t0.length, htake_self⟩,
      fun h => absurd h.1 hnb, fun h => absurd h.1 hnb,
      fun h => absurd h.1 hnb, fun _ => ⟨rfl, rfl⟩⟩
    simp only []
    omega

/-- C5: the elastic sizing policy of `mc_slab_start`.  With the ring in
sync (`nb_slabs` equals the list length, at least one slab): a tick start
increments `strikes` when at least two slabs exist, the strike threshold
has not been reached and the previous `slab_total` fits in one slab less;
when `strikes` has reached `max_strikes` it frees exactly
`max 1 ((nb_slabs - 1) / 2)` slabs from the tail and resets `strikes`;
when the previous tick used all the slabs (below the threshold) `strikes`
is reset to zero; and afterwards `nb_slabs ≥ 1` always holds and the head
slab survives in place (index 0, emptied; the other survivors keep their
positions). -/
theorem mc_slab_start_policy (maxStrikes : Nat) (mc : MCParams)
    (hsync : mc.slabs.length = mc.nb_slabs) (h1 : 1 ≤ mc.nb_slabs) :
    ((2 ≤ mc.nb_slabs ∧ mc.strikes < maxStrikes ∧
        mc.slab_total ≤ (mc.nb_slabs - 1) * MC_SLAB_BUFFER_SIZE) →
      (mc_slab_start maxStrikes mc).strikes = mc.strikes + 1 ∧
      (mc_slab_start maxStrikes mc).nb_slabs = mc.nb_slabs) ∧
    ((2 ≤ mc.nb_slabs ∧ maxStrikes ≤ mc.strikes) →
      (mc_slab_start maxStrikes mc).strikes = 0 ∧
      (mc_slab_start maxStrikes mc).nb_slabs
        = mc.nb_slabs - max 1 ((mc.nb_slabs - 1) / 2)) ∧
    ((2 ≤ mc.nb_slabs ∧ mc.strikes < maxStrikes ∧
        (mc.nb_slabs - 1) * MC_SLAB_BUFFER_SIZE < mc.slab_total) →
      (mc_slab_start maxStrikes mc).strikes = 0) ∧
    (1 ≤ (mc_slab_start maxStrikes mc).nb_slabs ∧
     (mc_slab_start maxStrikes mc).slabs.length = (mc_slab_start maxStrikes mc).nb_slabs ∧
     (mc_slab_start maxStrikes mc).slabs[0]? = some emptySlab ∧
     (mc_slab_start maxStrikes mc).slab_total = 0 ∧
     (mc_slab_start maxStrikes mc).currIdx = 0 ∧
     (∀ i, 1 ≤ i → i < (mc_slab_start maxStrikes mc).nb_slabs →
        (mc_slab_start maxStrikes mc).slabs[i]? = mc.slabs[i]?)) := by
  have hne : mc.slabs ≠ [] := List.ne_nil_of_length_pos (by omega)
  obtain ⟨h0, t0, hsl⟩ := List.exists_cons_of_ne_nil hne
  have hlen : mc.slabs.length = t0.length + 1 := by rw [hsl]; rfl
  obtain ⟨htot0, hcurr0, t', hslabs', hnb', ⟨m, hm⟩, g1, g2, g3, g4⟩ :=
    mc_slab_start_cases maxStrikes mc h0 t0 hsl hsync
  refine ⟨?_, g1, fun h => (g3 h).1, ?_, ?_, ?_, htot0, hcurr0, ?_⟩
  · intro h
    refine ⟨(g2 h).1, ?_⟩
    have := (g2 h).2
    rw [hnb', this]
    omega
  · rw [hnb']
    omega
  · rw [hslabs', hnb']
    rfl
  · rw [hslabs']
    simp
  · intro i hi1 hi2
    obtain ⟨j, rfl⟩ : ∃ j, i = j + 1 := ⟨i - 1, by omega⟩
    have hjlen : j < t'.length := by omega
    have hjm : j < m := by
      rw [hm, List.length_take] at hjlen
      omega
    rw [hslabs', hsl, List.getElem?_cons_succ, List.getElem?_cons_succ, hm,
      List.getElem?_take, if_pos hjm]

/-- Concrete ring used to witness the shrink branch of C5: three slabs,
`strikes = 7` against a threshold of 5. -/
def mcShrinkDemo : MCParams := ⟨[emptySlab, emptySlab, emptySlab], 0, 0, 3, 7⟩

/-- Witness for C5: on `mcShrinkDemo` the hypotheses and the shrink guard
hold, and the policy theorem yields the shrunken ring. -/
theorem mc_slab_start_policy_witness :
    (mcShrinkDemo.slabs.length = mcShrinkDemo.nb_slabs ∧ 1 ≤ mcShrinkDemo.nb_slabs ∧
     2 ≤ mcShrinkDemo.nb_slabs ∧ 5 ≤ mcShrinkDemo.strikes) ∧
    ((mc_slab_start 5 mcShrinkDemo).strikes = 0 ∧
     (mc_slab_start 5 mcShrinkDemo).nb_slabs
       = mcShrinkDemo.nb_slabs - max 1 ((mcShrinkDemo.nb_slabs - 1) / 2)) :=
  ⟨⟨by decide, by decide, by decide, by decide⟩,
   (mc_slab_start_policy 5 mcShrinkDemo (by decide) (by decide)).2.1 ⟨by decide, by decide⟩⟩

/-- A one-slab ring holding one unread byte with `slab_total = 1`:
`slab_total = Σ slab.size` holds before a read. -/
def mcGetDemo : MCParams := ⟨[⟨[7], 0⟩], 0, 1, 1, 0⟩

/-- C6 counterexample: `mc_get_buffer` decrements `slab_total` without
changing any `slab.size`, so reading one byte from `mcGetDemo` leaves
`slab_total = 0` while `Σ slab.size = 1`: the claimed invariant
`slab_total = Σ slab.size` is not preserved by the get operation. -/
theorem mc_get_buffer_breaks_size_sum :
    mcGetDemo.slab_total = sizeSum mcGetDemo.slabs ∧
    (mc_get_buffer mcGetDemo 1).1.slab_total ≠ sizeSum (mc_get_buffer mcGetDemo 1).1.slabs := by
  decide

/-- C6 (amended): `head` is always present and `slab_total` tracks the
unread bytes: `slab_total = Σ (slab.size - slab.read)`.  `mc_get_buffer`
preserves this equality unconditionally; `mc_put_buffer` preserves it
whenever the reusable slabs beyond the write cursor hold no unread bytes
(they are reset on reuse); `mc_slab_start` sets `slab_total = 0`, keeps
the head slab, and re-establishes the equality whenever the slabs after
`head` hold no unread bytes. -/
theorem mc_slab_total_tracks_unread :
    (∀ (data : List Nat) (pre : List MCSlab) (curr : MCSlab) (post : List MCSlab)
        (tot nb st : Nat),
      curr.read ≤ curr.size →
      (∀ s ∈ post, s.size ≤ s.read) →
      tot = unreadSum (pre ++ curr :: post) →
      ∃ mc' n, mc_put_buffer ⟨pre ++ curr :: post, pre.length, tot, nb, st⟩ data
          = some (mc', n) ∧ n = data.length ∧
        mc'.slab_total = unreadSum mc'.slabs) ∧
    (∀ (mc : MCParams) (size : Nat),
      mc.slab_total = unreadSum mc.slabs →
      (mc_get_buffer mc size).1.slab_total = unreadSum (mc_get_buffer mc size).1.slabs) ∧
    (∀ (maxStrikes : Nat) (mc : MCParams),
      mc.slabs.length = mc.nb_slabs → 1 ≤ mc.nb_slabs →
      (mc_slab_start maxStrikes mc).slab_total = 0 ∧
      (mc_slab_start maxStrikes mc).slabs ≠ [] ∧
      ((∀ s ∈ mc.slabs.tail, s.size ≤ s.read) →
        (mc_slab_start maxStrikes mc).slab_total
          = unreadSum (mc_slab_start maxStrikes mc).slabs)) := by
  refine ⟨?_, ?_, ?_⟩
  · -- mc_put_buffer
    intro data pre curr post tot nb st hr hpost htot
    obtain ⟨pre2, curr2, post2, nb2, k, hput, havail, hread2, hpost2⟩ :=
      mc_put_buffer_spec data pre curr post tot nb st hr
    refine ⟨_, _, hput, rfl, ?_⟩
    have hpost2z : unreadSum post2 = 0 := by
      apply unreadSum_eq_zero
      intro s hs
      exact hpost s (List.mem_of_mem_drop (hpost2 ▸ hs))
    have hpostz : unreadSum post = 0 := unreadSum_eq_zero _ hpost
    have h1 : unreadSum (pre2 ++ curr2 :: post2)
        = unreadSum pre2 + ((curr2.size - curr2.read) + unreadSum post2) := by
      rw [unreadSum_append, unreadSum_cons]
    have h2 : unreadSum pre2 + (curr2.size - curr2.read)
        = (listAvail pre2 ++ curr2.avail).length := by
      rw [List.length_append, ← unreadSum_eq_length_listAvail, avail_length]
    have h3 : (listAvail pre ++ curr.avail ++ data).length
        = unreadSum pre + (curr.size - curr.read) + data.length := by
      rw [List.length_append, List.length_append, ← unreadSum_eq_length_listAvail,
        avail_length]
    have htot' : tot = unreadSum pre + (curr.size - curr.read) := by
      rw [unreadSum_append, unreadSum_cons, hpostz] at htot
      omega
    have hlen2 : (listAvail pre2 ++ curr2.avail).length
        = (listAvail pre ++ curr.avail ++ data).length := by rw [havail]
    show tot + data.length = unreadSum (pre2 ++ curr2 :: post2)
    rw [h1, hpost2z, htot']
    omega
  · -- mc_get_buffer
    intro mc size hmc
    have hsp := (mc_get_buffer_loop_spec (mc.slabs.drop mc.currIdx) size).2
    have hsplit : unreadSum mc.slabs
        = unreadSum (mc.slabs.take mc.currIdx) + unreadSum (mc.slabs.drop mc.currIdx) := by
      rw [← unreadSum_append, List.take_append_drop]
    simp only [mc_get_buffer]
    rw [unreadSum_append]
    omega
  · -- mc_slab_start
    intro maxStrikes mc hsync h1
    have hne : mc.slabs ≠ [] := List.ne_nil_of_length_pos (by omega)
    obtain ⟨h0, t0, hsl⟩ := List.exists_cons_of_ne_nil hne
    obtain ⟨htot0, hcurr0, t', hslabs', hnb', ⟨m, hm⟩, g1, g2, g3, g4⟩ :=
      mc_slab_start_cases maxStrikes mc h0 t0 hsl hsync
    refine ⟨htot0, by rw [hslabs']; simp, ?_⟩
    intro htail
    rw [htot0, hslabs', unreadSum_cons]
    have ht'z : unreadSum t' = 0 := by
      apply unreadSum_eq_zero
      intro s hs
      apply htail
      rw [hsl]
      exact List.mem_of_mem_take (hm ▸ hs)
    rw [ht'z]
    simp [emptySlab, MCSlab.size]

/-- Witness for the amended C6: on the concrete ring `mcGetDemo` the
unread-byte equality holds and is preserved by a one-byte read. -/
theorem mc_slab_total_tracks_unread_witness :
    mcGetDemo.slab_total = unreadSum mcGetDemo.slabs ∧
    (mc_get_buffer mcGetDemo 1).1.slab_total
      = unreadSum (mc_get_buffer mcGetDemo 1).1.slabs :=
  ⟨by decide, mc_slab_total_tracks_unread.2.1 mcGetDemo 1 (by decide)⟩

/-! ### The replication control protocol and the MC loops -/

/-- The `MC_TRANSACTION` enum (migration-checkpoint.c:124-129).  The C
enumeration rule gives each enumerator without an initializer the value
of its predecessor plus one, starting from `NACK = -1`. -/
def MC_TRANSACTION_NACK : Int := -1

/-- `MC_TRANSACTION_COMMIT`: successor of `NACK = -1` in the enum. -/
def MC_TRANSACTION_COMMIT : Int := MC_TRANSACTION_NACK + 1

/-- `MC_TRANSACTION_CANCEL`: successor of `COMMIT` in the enum. -/
def MC_TRANSACTION_CANCEL : Int := MC_TRANSACTION_COMMIT + 1

/-- `MC_TRANSACTION_ACK`: successor of `CANCEL` in the enum. -/
def MC_TRANSACTION_ACK : Int := MC_TRANSACTION_CANCEL + 1

/-- The C conversion of a (possibly negative) `int` to `uint32_t`. -/
def toU32 (i : Int) : Nat := (i % (2 ^ 32)).toNat

/-- The four bytes `qemu_put_be32` puts on the wire (big endian). -/
def be32Bytes (n : Nat) : List Nat :=
  [n / 2 ^ 24 % 256, n / 2 ^ 16 % 256, n / 2 ^ 8 % 256, n % 256]

/-- Wire bytes of `mc_send(f, request)` (migration-checkpoint.c:490-505):
a single big-endian 32-bit word. -/
def mc_send_wire (request : Nat) : List Nat := be32Bytes request

/-- Oracle for `capture_checkpoint` (migration-checkpoint.c:441-485): the
two values `qemu_file_get_error(s->file)` returns after
`qemu_savevm_state_begin` and after `qemu_savevm_state_complete`. -/
structure CaptureOracle where
  errAfterBegin : Int
  errAfterComplete : Int
deriving DecidableEq

/-- Observable outcome of `capture_checkpoint`: its return value, whether
`migrate_set_state(..., MIG_STATE_ERROR)` ran, whether `vm_start()` ran,
and whether the I/O-thread mutex was released on exit. -/
structure CaptureResult where
  ret : Int
  errorStateSet : Bool
  vmStarted : Bool
  iothreadUnlocked : Bool
deriving DecidableEq

/-- `capture_checkpoint` (migration-checkpoint.c:441-485).  The function
locks the I/O thread, stops the VM, inserts the barrier for the next
checkpoint (`mc_start_buffer`), resets the staging buffer and saves the
VM state (begin + complete).  A negative file error after `begin` sets
the ERROR migration state but the code still runs `complete`; a negative
file error after `complete` sets ERROR and jumps to `out`, skipping
`vm_start()` and `qemu_fflush`; either way the mutex is unlocked at
`out` and the last file error is returned. -/
def capture_checkpoint (o : CaptureOracle) : CaptureResult :=
  let err1 := decide (o.errAfterBegin < 0)
  if o.errAfterComplete < 0 then
    { ret := o.errAfterComplete, errorStateSet := true,
      vmStarted := false, iothreadUnlocked := true }
  else
    { ret := o.errAfterComplete, errorStateSet := err1,
      vmStarted := true, iothreadUnlocked := true }

/-- Events of one iteration of the primary MC loop (`mc_thread`,
migration-checkpoint.c:632-738), in program order. -/
inductive MCEvent where
  | slabStart
  | captureCP
  | sendCommit
  | sendSize
  | sendSlabBytes
  | recvAck (ok : Bool)
  | releaseOne
  | sleepTick
deriving DecidableEq

/-- How one iteration of the `mc_thread` loop ends. -/
inductive MCIterExit where
  | breakLoop
  | gotoErr
  | nextIteration
deriving DecidableEq

/-- Oracle for one `mc_thread` iteration: results of the external calls
(capture, the COMMIT send, the slab send loop, the stream error check,
the ACK receive). -/
structure MCLoopOracle where
  capture : CaptureOracle
  commitSendErr : Int
  sendDataOk : Bool
  fileErr : Int
  ackRecvErr : Int
deriving DecidableEq

/-- One iteration of the primary MC loop (`mc_thread`,
migration-checkpoint.c:632-738) as the trace of events it performs and
how it exits.  `mc_flush_oldest_buffer` (the traffic-buffer release-one,
lines 418-433) is invoked at line 707, strictly after a successful
`mc_recv(mc_read, MC_TRANSACTION_ACK)` at line 699; every error path
(capture failure, commit-send failure, data-send failure, stream error,
ACK failure) exits before it. -/
def mc_thread_iteration (o : MCLoopOracle) : List MCEvent × MCIterExit :=
  let t0 := [MCEvent.slabStart, MCEvent.captureCP]
  if (capture_checkpoint o.capture).ret < 0 then (t0, MCIterExit.breakLoop)
  else
    let t1 := t0 ++ [MCEvent.sendCommit]
    if o.commitSendErr < 0 then (t1, MCIterExit.breakLoop)
    else
      let t2 := t1 ++ [MCEvent.sendSize, MCEvent.sendSlabBytes]
      if ¬ o.sendDataOk then (t2, MCIterExit.gotoErr)
      else if o.fileErr ≠ 0 then (t2, MCIterExit.gotoErr)
      else if o.ackRecvErr < 0 then
        (t2 ++ [MCEvent.recvAck false], MCIterExit.gotoErr)
      else
        (t2 ++ [MCEvent.recvAck true, MCEvent.releaseOne, MCEvent.sleepTick],
         MCIterExit.nextIteration)

/-- C1: in every iteration of the primary MC loop, the traffic-buffer
release-one operation is invoked only after the ACK for this checkpoint
has been received from the secondary: every occurrence of `releaseOne`
in the iteration trace is preceded by a successful `recvAck`. -/
theorem mc_release_one_only_after_ack (o : MCLoopOracle) (j : Nat)
    (hj : (mc_thread_iteration o).1[j]? = some MCEvent.releaseOne) :
    ∃ i, i < j ∧ (mc_thread_iteration o).1[i]? = some (MCEvent.recvAck true) := by
  unfold mc_thread_iteration at hj ⊢
  by_cases h1 : (capture_checkpoint o.capture).ret < 0
  · rw [if_pos h1] at hj
    have : j < 2 := by
      by_contra hge
      rw [List.getElem?_eq_none (by simp; omega)] at hj
      exact Option.noConfusion hj
    interval_cases j <;> simp_all
  · rw [if_neg h1] at hj
    rw [if_neg h1]
    by_cases h2 : o.commitSendErr < 0
    · rw [if_pos h2] at hj
      have : j < 3 := by
        by_contra hge
        rw [List.getElem?_eq_none (by simp; omega)] at hj
        exact Option.noConfusion hj
      interval_cases j <;> simp_all
    · rw [if_neg h2] at hj
      rw [if_neg h2]
      by_cases h3 : ¬ o.sendDataOk
      · rw [if_pos h3] at hj
        have : j < 5 := by
          by_contra hge
          rw [List.getElem?_eq_none (by simp; omega)] at hj
          exact Option.noConfusion hj
        interval_cases j <;> simp_all
      · rw [if_neg h3] at hj
        rw [if_neg h3]
        by_cases h4 : o.fileErr ≠ 0
        · rw [if_pos h4] at hj
          have : j < 5 := by
            by_contra hge
            rw [List.getElem?_eq_none (by simp; omega)] at hj
            exact Option.noConfusion hj
          interval_cases j <;> simp_all
        · rw [if_neg h4] at hj
          rw [if_neg h4]
          by_cases h5 : o.ackRecvErr < 0
          · rw [if_pos h5] at hj
            have : j < 6 := by
              by_contra hge
              rw [List.getElem?_eq_none (by simp; omega)] at hj
              exact Option.noConfusion hj
            interval_cases j <;> simp_all
          · rw [if_neg h5] at hj
            rw [if_neg h5]
            have : j < 8 := by
              by_contra hge
              rw [List.getElem?_eq_none (by simp; omega)] at hj
              exact Option.noConfusion hj
            refine ⟨5, ?_, by simp⟩
            interval_cases j <;> simp_all

/-- The all-success oracle for one MC iteration. -/
def mcLoopDemo : MCLoopOracle :=
  ⟨⟨0, 0⟩, 0, true, 0, 0⟩

/-- Witness for C1: in the all-success iteration the `releaseOne` event
sits at position 6 and a successful ACK receive indeed precedes it. -/
theorem mc_release_one_only_after_ack_witness :
    (mc_thread_iteration mcLoopDemo).1[6]? = some MCEvent.releaseOne ∧
    ∃ i, i < 6 ∧ (mc_thread_iteration mcLoopDemo).1[i]? = some (MCEvent.recvAck true) :=
  ⟨by decide, mc_release_one_only_after_ack mcLoopDemo 6 (by decide)⟩

/-- C3 counterexample: the enum `{ NACK = -1, COMMIT, CANCEL, ACK }`
gives `COMMIT = 0`, `CANCEL = 1`, `ACK = 2` by the C successor rule, so
the sentinel values claimed as `COMMIT = 1`, `CANCEL = 2`, `ACK = 3` are
wrong, and the COMMIT word the primary sends is big-endian 0, not 1. -/
theorem mc_transaction_sentinels_cex :
    ¬ (MC_TRANSACTION_NACK = -1 ∧ MC_TRANSACTION_COMMIT = 1 ∧
       MC_TRANSACTION_CANCEL = 2 ∧ MC_TRANSACTION_ACK = 3) ∧
    mc_send_wire (toU32 MC_TRANSACTION_COMMIT) ≠ [0, 0, 0, 1] := by
  constructor
  · intro h
    have := h.2.1
    simp [MC_TRANSACTION_COMMIT, MC_TRANSACTION_NACK] at this
  · intro h
    simp [mc_send_wire, be32Bytes, toU32, MC_TRANSACTION_COMMIT,
      MC_TRANSACTION_NACK] at h

/-- C3 (amended): the wire sentinels are `NACK = -1`, `COMMIT = 0`,
`CANCEL = 1`, `ACK = 2`; the primary sends the 32-bit big-endian value 0
as the COMMIT command before each checkpoint's size and payload. -/
theorem mc_transaction_sentinels :
    MC_TRANSACTION_NACK = -1 ∧ MC_TRANSACTION_COMMIT = 0 ∧
    MC_TRANSACTION_CANCEL = 1 ∧ MC_TRANSACTION_ACK = 2 ∧
    mc_send_wire (toU32 MC_TRANSACTION_COMMIT) = [0, 0, 0, 0] := by
  refine ⟨rfl, by decide, by decide, by decide, ?_⟩
  simp [mc_send_wire, be32Bytes, toU32, MC_TRANSACTION_COMMIT, MC_TRANSACTION_NACK]

/-- How one iteration of the secondary's receive loop ends
(`mc_process_incoming_checkpoints_if_requested`,
migration-checkpoint.c:835-915): jump to `rollback` (checkpointing is
abandoned and the function returns), `exit(1)`, or proceed to the next
iteration. -/
inductive MCRecvExit where
  | rollback
  | exitProcess (code : Nat)
  | nextIteration
deriving DecidableEq

/-- Oracle for one receive-loop iteration: the `mc_recv(COMMIT)` result,
the 32-bit checkpoint size read next, whether the `qemu_recv` fill loop
got all bytes, the `mc_send(ACK)` result, and the `qemu_loadvm_state`
result. -/
structure MCRecvOracle where
  commitRecvErr : Int
  checkpointSize : Nat
  recvFillOk : Bool
  ackSendErr : Int
  loadvmErr : Int
deriving DecidableEq

/-- One iteration of the secondary's receive loop
(migration-checkpoint.c:835-915): receive COMMIT, read the size, reject
a zero size (`goto rollback`), fill the slabs from the socket, ACK, then
apply the checkpoint with `qemu_loadvm_state`; a load failure jumps to
`err`, which prints and calls `exit(1)`. -/
def mc_incoming_iteration (o : MCRecvOracle) : MCRecvExit :=
  if o.commitRecvErr < 0 then MCRecvExit.rollback
  else if o.checkpointSize = 0 then MCRecvExit.rollback
  else if ¬ o.recvFillOk then MCRecvExit.rollback
  else if o.ackSendErr < 0 then MCRecvExit.rollback
  else if o.loadvmErr < 0 then MCRecvExit.exitProcess 1
  else MCRecvExit.nextIteration

/-- C4: on the secondary's receive loop, a received checkpoint size of
zero is a protocol violation that aborts checkpointing (the `rollback`
path), and a failure of the hypervisor load-state call is fatal: the
receiver exits the process with status 1. -/
theorem mc_incoming_zero_size_and_loadvm (o : MCRecvOracle)
    (hcommit : 0 ≤ o.commitRecvErr) :
    (o.checkpointSize = 0 → mc_incoming_iteration o = MCRecvExit.rollback) ∧
    (o.checkpointSize ≠ 0 → o.recvFillOk = true → 0 ≤ o.ackSendErr →
      o.loadvmErr < 0 → mc_incoming_iteration o = MCRecvExit.exitProcess 1) := by
  constructor
  · intro hz
    simp [mc_incoming_iteration, hz]
  · intro hz hfill hack hload
    simp [mc_incoming_iteration, hz, hfill, hload]
    rw [if_neg (by omega), if_neg (by omega)]

/-- Witness oracle for C4: a well-formed COMMIT whose load-state call
fails. -/
def mcRecvDemo : MCRecvOracle := ⟨0, 4096, true, 0, -5⟩

/-- Witness for C4: on `mcRecvDemo` the receiver exits the process with
status 1. -/
theorem mc_incoming_zero_size_and_loadvm_witness :
    (0 ≤ mcRecvDemo.commitRecvErr) ∧
    mc_incoming_iteration mcRecvDemo = MCRecvExit.exitProcess 1 :=
  ⟨by decide,
   (mc_incoming_zero_size_and_loadvm mcRecvDemo (by decide)).2
     (by decide) (by decide) (by decide) (by decide)⟩

/-- C10: if saving the VM state fails during checkpoint capture (the
sticky stream error surfaces after `qemu_savevm_state_complete`),
`capture_checkpoint` returns that negative error and the ERROR migration
state is set, but `vm_start()` is skipped — the guest is not resumed —
even though the I/O-thread mutex is still released on the way out. -/
theorem capture_checkpoint_error_path (o : CaptureOracle)
    (herr : o.errAfterComplete < 0) :
    (capture_checkpoint o).ret < 0 ∧
    (capture_checkpoint o).errorStateSet = true ∧
    (capture_checkpoint o).vmStarted = false ∧
    (capture_checkpoint o).iothreadUnlocked = true := by
  simp [capture_checkpoint, herr]

/-- Witness for C10: a capture whose save stream carries error -5. -/
theorem capture_checkpoint_error_path_witness :
    ((-5 : Int) < 0) ∧
    ((capture_checkpoint ⟨-5, -5⟩).ret < 0 ∧
     (capture_checkpoint ⟨-5, -5⟩).errorStateSet = true ∧
     (capture_checkpoint ⟨-5, -5⟩).vmStarted = false ∧
     (capture_checkpoint ⟨-5, -5⟩).iothreadUnlocked = true) :=
  ⟨by decide, capture_checkpoint_error_path ⟨-5, -5⟩ (by decide)⟩

end MCheck

namespace RDMACore

/-! ### The RDMA transport (the unnamed source file) -/

/-- `RDMA_REG_CHUNK_SHIFT` (1 MiB chunks). -/
def RDMA_REG_CHUNK_SHIFT : Nat := 20

/-- `ram_chunk_index` (part_000:789-793). -/
def ram_chunk_index (start host : Nat) : Nat :=
  (host - start) >>> RDMA_REG_CHUNK_SHIFT

/-- `struct RDMALocalBlock` restricted to the fields the verified claims
touch: geometry, per-chunk pinning bookkeeping and the `is_ram_block`
flag.  The `pmr`/`mr` pinning handles of the C structure are opaque
device resources and are not modelled. -/
structure RDMALocalBlock where
  local_host_addr : Nat
  offset : Nat
  length : Nat
  index : Nat
  nb_chunks : Nat
  transit_bitmap : List Bool
  unregister_bitmap : List Bool
  remote_keys : List Nat
  remote_host_addr : Nat
  remote_rkey : Nat
  is_ram_block : Bool
deriving DecidableEq

/-- An all-zero local block (used only as a `getD` default). -/
def defaultLocalBlock : RDMALocalBlock := ⟨0, 0, 0, 0, 0, [], [], [], 0, 0, false⟩

/-- `ram_chunk_start` (part_000:795-800). -/
def ram_chunk_start (block : RDMALocalBlock) (i : Nat) : Nat :=
  block.local_host_addr + (i <<< RDMA_REG_CHUNK_SHIFT)

/-- `ram_chunk_end` (part_000:802-813): one chunk further, clamped to the
end of the block. -/
def ram_chunk_end (block : RDMALocalBlock) (i : Nat) : Nat :=
  min (ram_chunk_start block i + (1 <<< RDMA_REG_CHUNK_SHIFT))
    (block.local_host_addr + block.length)

/-- `struct RDMALocalBlocks` (block array, block count, `init` flag). -/
structure RDMALocalBlocks where
  block : List RDMALocalBlock
  nb_blocks : Nat
  init : Bool
deriving DecidableEq

/-- `__qemu_rdma_add_block` (part_000:815-866): append a block record
with fresh cleared bitmaps and `remote_keys`, indexed by the old block
count; `is_ram_block` is `local->init ? false : true`, so blocks added
during the initial RAM enumeration (while `init` is still false) get
`true` and blocks added afterwards get `false`.  The `blockmap` hash
table mirrors the array and is not separately modelled. -/
def __qemu_rdma_add_block (loc : RDMALocalBlocks)
    (host_addr block_offset length : Nat) : RDMALocalBlocks :=
  let nb_chunks := ram_chunk_index host_addr (host_addr + length) + 1
  let b : RDMALocalBlock :=
    { local_host_addr := host_addr
      offset := block_offset
      length := length
      index := loc.nb_blocks
      nb_chunks := nb_chunks
      transit_bitmap := List.replicate nb_chunks false
      unregister_bitmap := List.replicate nb_chunks false
      remote_keys := List.replicate nb_chunks 0
      remote_host_addr := 0
      remote_rkey := 0
      is_ram_block := !loc.init }
  { block := loc.block ++ [b], nb_blocks := loc.nb_blocks + 1, init := loc.init }

/-- `qemu_rdma_init_ram_blocks` (part_000:884-897): starting from an
empty registry with `init = false`, add one block per RAM block the
hypervisor enumerates (`host_addr`, `block_offset`, `length` triples),
then set `init := true`. -/
def qemu_rdma_init_ram_blocks (ram : List (Nat × Nat × Nat)) : RDMALocalBlocks :=
  let l0 : RDMALocalBlocks := { block := [], nb_blocks := 0, init := false }
  let l1 := ram.foldl (fun l r => __qemu_rdma_add_block l r.1 r.2.1 r.2.2) l0
  { l1 with init := true }

lemma init_ram_blocks_aux :
    ∀ (ram : List (Nat × Nat × Nat)) (l : RDMALocalBlocks),
      l.init = false → (∀ b ∈ l.block, b.is_ram_block = true) →
      (ram.foldl (fun l r => __qemu_rdma_add_block l r.1 r.2.1 r.2.2) l).init = false ∧
      (∀ b ∈ (ram.foldl (fun l r => __qemu_rdma_add_block l r.1 r.2.1 r.2.2) l).block,
        b.is_ram_block = true) := by
  intro ram
  induction ram with
  | nil => intro l h1 h2; exact ⟨h1, h2⟩
  | cons r rs ih =>
    intro l h1 h2
    apply ih
    · simpa [__qemu_rdma_add_block] using h1
    · intro b hb
      simp only [__qemu_rdma_add_block, List.mem_append, List.mem_singleton] at hb
      rcases hb with hb | hb
      · exact h2 b hb
      · rw [hb]
        simp [h1]

/-- The two-RAM-block enumeration used as the C8 counterexample. -/
def demoRam : List (Nat × Nat × Nat) := [(0, 0, 5), (4096, 5, 7)]

/-- C8 counterexample: with two RAM blocks in the initial enumeration,
the second registered block has `is_ram_block = true` (it is registered
while `local->init` is still false), contradicting the claim that every
block from the second onward has the flag false. -/
theorem rdma_second_block_flag_cex :
    2 ≤ (qemu_rdma_init_ram_blocks demoRam).nb_blocks ∧
    ((qemu_rdma_init_ram_blocks demoRam).block.getD 1 defaultLocalBlock).is_ram_block
      = true ∧
    ((qemu_rdma_init_ram_blocks demoRam).block.getD 1 defaultLocalBlock).is_ram_block
      ≠ false := by
  decide

/-- C8 (amended): every block registered by the initial RAM-block
enumeration (while `local->init` is false) has `is_ram_block = true`;
every block registered after the enumeration (once `init` is true, the
non-RAM regions subsequently added by callers) has the flag false. -/
theorem rdma_is_ram_block_flag :
    (∀ (ram : List (Nat × Nat × Nat)) (b : RDMALocalBlock),
      b ∈ (qemu_rdma_init_ram_blocks ram).block → b.is_ram_block = true) ∧
    (∀ (l : RDMALocalBlocks) (a o len : Nat), l.init = true →
      ∃ nb, (__qemu_rdma_add_block l a o len).block = l.block ++ [nb] ∧
        nb.is_ram_block = false) := by
  constructor
  · intro ram b hb
    have := (init_ram_blocks_aux ram ⟨[], 0, false⟩ rfl (by simp)).2
    apply this
    simpa [qemu_rdma_init_ram_blocks] using hb
  · intro l a o len hinit
    refine ⟨_, rfl, ?_⟩
    simp [hinit]

/-- Witness for the amended C8: the first block of the demo enumeration
is a member of the registry and carries `is_ram_block = true`; a block
added once `init` is set carries `false`. -/
theorem rdma_is_ram_block_flag_witness :
    ((qemu_rdma_init_ram_blocks demoRam).block.getD 0 defaultLocalBlock
        ∈ (qemu_rdma_init_ram_blocks demoRam).block ∧
      ((qemu_rdma_init_ram_blocks demoRam).block.getD 0 defaultLocalBlock).is_ram_block
        = true) ∧
    ((qemu_rdma_init_ram_blocks demoRam).init = true ∧
      ∃ nb, (__qemu_rdma_add_block (qemu_rdma_init_ram_blocks demoRam) 8192 12 3).block
          = (qemu_rdma_init_ram_blocks demoRam).block ++ [nb] ∧
        nb.is_ram_block = false) :=
  ⟨⟨by decide,
    rdma_is_ram_block_flag.1 demoRam _ (by decide)⟩,
   ⟨by decide,
    rdma_is_ram_block_flag.2 (qemu_rdma_init_ram_blocks demoRam) 8192 12 3 (by decide)⟩⟩

/-! ### Transit-bitmap discipline of the write engine (C7)

`qemu_rdma_write` (part_000:2266-2487) posts a WRITE for a chunk only
after spinning in `block_for_wrid` until `test_bit(chunk,
transit_bitmap)` is clear (lines 2281-2300); when the verb succeeds it
runs `set_bit(chunk, transit_bitmap)` and increments the in-flight
counters (lines 2467-2475).  `qemu_rdma_poll` (part_000:1743-1770)
decodes the block/chunk from the completed `wr_id` and runs
`clear_bit(chunk, transit_bitmap)`, decrementing the counters.  The state
machine below has exactly these two transitions; `inflight` is the
multiset of (block, chunk) pairs with an outstanding signaled WRITE
completion. -/

/-- Transit state of one connection: the per-(block, chunk) transit bit,
the outstanding WRITE completions, and the `nb_sent` counter. -/
structure RDMATransit where
  transit : Nat → Nat → Bool
  inflight : List (Nat × Nat)
  nb_sent : Nat

/-- The two transitions of the transit-bitmap discipline,
parameterised by the chunk count of each block.  `post` requires the
transit bit clear (the wait loop of part_000:2281-2300 does not return
until it is), sets it and counts the WRITE as outstanding
(part_000:2467-2475); `complete` is `qemu_rdma_poll` draining one WRITE
completion (part_000:1743-1770): it clears the bit and forgets the
outstanding completion. -/
inductive RDMAWriteStep (nChunks : Nat → Nat) : RDMATransit → RDMATransit → Prop where
  | post (s : RDMATransit) (b c : Nat) (hc : c < nChunks b)
      (hclear : s.transit b c = false) :
      RDMAWriteStep nChunks s
        { transit := fun b' c' => if b' = b ∧ c' = c then true else s.transit b' c',
          inflight := (b, c) :: s.inflight,
          nb_sent := s.nb_sent + 1 }
  | complete (s : RDMATransit) (b c : Nat) (hmem : (b, c) ∈ s.inflight) :
      RDMAWriteStep nChunks s
        { transit := fun b' c' => if b' = b ∧ c' = c then false else s.transit b' c',
          inflight := s.inflight.erase (b, c),
          nb_sent := s.nb_sent - 1 }

/-- The connection starts with all transit bits clear and nothing in
flight (`bitmap_clear` at part_000:846-847). -/
def rdmaTransitInit : RDMATransit := ⟨fun _ _ => false, [], 0⟩

/-- States reachable by the write engine from the initial state. -/
def RDMAReachable (nChunks : Nat → Nat) (s : RDMATransit) : Prop :=
  Relation.ReflTransGen (RDMAWriteStep nChunks) rdmaTransitInit s

/-- Number of set bits of block `b`'s transit bitmap. -/
def transitSetCount (nChunks : Nat → Nat) (s : RDMATransit) (b : Nat) : Nat :=
  ((List.range (nChunks b)).filter (fun c => s.transit b c)).length

/-- Number of outstanding WRITE completions expected for block `b`. -/
def outstandingFor (s : RDMATransit) (b : Nat) : Nat :=
  (s.inflight.filter (fun p => p.1 = b)).length

/-- The inductive invariant of the transit discipline. -/
def RDMATransitInv (nChunks : Nat → Nat) (s : RDMATransit) : Prop :=
  s.inflight.Nodup ∧
  (∀ b c, s.transit b c = true ↔ (b, c) ∈ s.inflight) ∧
  (∀ p ∈ s.inflight, p.2 < nChunks p.1) ∧
  s.nb_sent = s.inflight.length

lemma rdma_inv_init (nChunks : Nat → Nat) : RDMATransitInv nChunks rdmaTransitInit := by
  refine ⟨List.nodup_nil, ?_, ?_, rfl⟩
  · intro b c
    simp [rdmaTransitInit]
  · intro p hp
    simp [rdmaTransitInit] at hp

lemma rdma_inv_step (nChunks : Nat → Nat) (s s' : RDMATransit)
    (h : RDMAWriteStep nChunks s s') (hI : RDMATransitInv nChunks s) :
    RDMATransitInv nChunks s' := by
  obtain ⟨hnd, hiff, hbound, hcnt⟩ := hI
  cases h with
  | post b c hc hclear =>
    have hnot : (b, c) ∉ s.inflight := by
      intro hm
      have := (hiff b c).mpr hm
      rw [hclear] at this
      exact Bool.noConfusion this
    refine ⟨List.nodup_cons.mpr ⟨hnot, hnd⟩, ?_, ?_, ?_⟩
    · intro b' c'
      by_cases hbc : b' = b ∧ c' = c
      · simp only [if_pos hbc, List.mem_cons]
        constructor
        · intro _
          left
          rw [hbc.1, hbc.2]
        · intro _
          trivial
      · simp only [if_neg hbc, List.mem_cons]
        rw [hiff b' c']
        constructor
        · intro hm
          right
          exact hm
        · intro hm
          rcases hm with hm | hm
          · exact absurd ⟨congrArg Prod.fst hm, congrArg Prod.snd hm⟩ hbc
          · exact hm
    · intro p hp
      rcases List.mem_cons.mp hp with hp | hp
      · rw [hp]
        exact hc
      · exact hbound p hp
    · simp [hcnt]
  | complete b c hmem =>
    refine ⟨hnd.erase _, ?_, ?_, ?_⟩
    · intro b' c'
      by_cases hbc : b' = b ∧ c' = c
      · simp only [if_pos hbc]
        rw [hbc.1, hbc.2]
        constructor
        · intro hm
          exact Bool.noConfusion hm
        · intro hm
          exact absurd rfl (hnd.mem_erase_iff.mp hm).1
      · simp only [if_neg hbc]
        rw [hiff b' c', hnd.mem_erase_iff]
        constructor
        · intro hm
          refine ⟨?_, hm⟩
          intro he
          exact hbc ⟨congrArg Prod.fst he, congrArg Prod.snd he⟩
        · intro hm
          exact hm.2
    · intro p hp
      exact hbound p (List.mem_of_mem_erase hp)
    · rw [List.length_erase_of_mem hmem, hcnt]

lemma length_eq_of_nodup_of_mem_iff {α : Type} [DecidableEq α] {l₁ l₂ : List α}
    (h₁ : l₁.Nodup) (h₂ : l₂.Nodup) (h : ∀ x, x ∈ l₁ ↔ x ∈ l₂) :
    l₁.length = l₂.length := by
  rw [← List.toFinset_card_of_nodup h₁, ← List.toFinset_card_of_nodup h₂]
  congr 1
  ext x
  simp [h x]

lemma rdma_inv_count (nChunks : Nat → Nat) (s : RDMATransit)
    (hI : RDMATransitInv nChunks s) (b : Nat) :
    transitSetCount nChunks s b = outstandingFor s b := by
  obtain ⟨hnd, hiff, hbound, _⟩ := hI
  have hndf : (s.inflight.filter (fun p => p.1 = b)).Nodup := hnd.filter _
  have hfst : ∀ p ∈ s.inflight.filter (fun p => p.1 = b), p.1 = b := by
    intro p hp
    have := List.of_mem_filter hp
    exact of_decide_eq_true this
  have hnds : ((s.inflight.filter (fun p => p.1 = b)).map Prod.snd).Nodup := by
    apply List.Nodup.map_on _ hndf
    intro x hx y hy hxy
    have hx1 := hfst x hx
    have hy1 := hfst y hy
    rcases x with ⟨x1, x2⟩
    rcases y with ⟨y1, y2⟩
    simp only at hx1 hy1 hxy
    rw [hx1, hy1, hxy]
  have hmem : ∀ c, c ∈ (List.range (nChunks b)).filter (fun c => s.transit b c)
      ↔ c ∈ (s.inflight.filter (fun p => p.1 = b)).map Prod.snd := by
    intro c
    rw [List.mem_filter, List.mem_range, List.mem_map]
    constructor
    · intro hcin
      refine ⟨(b, c), ?_, rfl⟩
      rw [List.mem_filter]
      exact ⟨(hiff b c).mp hcin.2, by simp⟩
    · intro hcin
      obtain ⟨⟨p1, p2⟩, hp, hpc⟩ := hcin
      rw [List.mem_filter] at hp
      have hp1 : p1 = b := by simpa using hp.2
      simp only at hpc
      subst hp1
      subst hpc
      exact ⟨hbound _ hp.1, (hiff p1 p2).mpr hp.1⟩
  have hlen := length_eq_of_nodup_of_mem_iff
    ((List.nodup_range (nChunks b)).filter _) hnds hmem
  rw [transitSetCount, outstandingFor, hlen, List.length_map]

/-- C7: in every reachable state of the write engine, at most one RDMA
WRITE is in flight per chunk (the outstanding list has no duplicates), a
chunk's transit bit is set exactly while a WRITE on it is outstanding
(set when posted, cleared when its completion is drained; a WRITE is
posted only when the bit is clear, by construction of `post`), and for
every block the number of set transit bits equals the number of
outstanding write completions expected for that block; `nb_sent` counts
them globally. -/
theorem rdma_transit_bitmap_invariant (nChunks : Nat → Nat) (s : RDMATransit)
    (h : RDMAReachable nChunks s) :
    s.inflight.Nodup ∧
    (∀ b c, s.transit b c = true ↔ (b, c) ∈ s.inflight) ∧
    s.nb_sent = s.inflight.length ∧
    (∀ b, transitSetCount nChunks s b = outstandingFor s b) := by
  have hI : RDMATransitInv nChunks s := by
    induction h with
    | refl => exact rdma_inv_init nChunks
    | tail hsteps hstep ih => exact rdma_inv_step nChunks _ _ hstep ih
  exact ⟨hI.1, hI.2.1, hI.2.2.2, fun b => rdma_inv_count nChunks s hI b⟩

/-- One-post demo state for the C7 witness: block 0, chunk 0 in flight. -/
def rdmaDemoState : RDMATransit :=
  { transit := fun b' c' => if b' = 0 ∧ c' = 0 then true else rdmaTransitInit.transit b' c',
    inflight := (0, 0) :: rdmaTransitInit.inflight,
    nb_sent := rdmaTransitInit.nb_sent + 1 }

/-- Witness for C7: the state after posting one WRITE on (block 0,
chunk 0) is reachable and satisfies the invariant. -/
theorem rdma_transit_bitmap_invariant_witness :
    RDMAReachable (fun _ => 1) rdmaDemoState ∧
    (rdmaDemoState.inflight.Nodup ∧
     (∀ b c, rdmaDemoState.transit b c = true ↔ (b, c) ∈ rdmaDemoState.inflight) ∧
     rdmaDemoState.nb_sent = rdmaDemoState.inflight.length ∧
     (∀ b, transitSetCount (fun _ => 1) rdmaDemoState b = outstandingFor rdmaDemoState b)) :=
  ⟨Relation.ReflTransGen.single
     (RDMAWriteStep.post rdmaTransitInit 0 0 (by decide) rfl),
   rdma_transit_bitmap_invariant (fun _ => 1) rdmaDemoState
     (Relation.ReflTransGen.single
       (RDMAWriteStep.post rdmaTransitInit 0 0 (by decide) rfl))⟩

/-! ### The write engine `qemu_rdma_write` (C9) -/

/-- `struct RDMACurrentChunk` (the write-engine cursor): the accumulated
range awaiting flush and the chunk geometry `install_boundaries`
derives from it. -/
structure RDMACurrentChunk where
  current_addr : Nat
  current_length : Nat
  current_block_idx : Nat
  chunk_idx : Nat
  chunk_start : Nat
  chunk_end : Nat
  chunks : Nat
  addr : Nat
deriving DecidableEq

/-- The slice of `struct RDMAContext` the write engine reads and writes:
the block registry, the negotiated `pin_all` mode, the `source` role
flag, and the in-flight counters of the context and of the three local
contexts (`lc_remote`, `lc_src`, `lc_dest`). -/
structure RDMAContextM where
  local_ram_blocks : RDMALocalBlocks
  pin_all : Bool
  source : Bool
  nb_sent : Nat
  total_writes : Nat
  lc_remote_nb_sent : Nat
  lc_src_nb_sent : Nat
  lc_dest_nb_sent : Nat
deriving DecidableEq

/-- Which `RDMALocalContext` a write goes through (part_000:2263-2264):
`lc_remote` for remote transfers, `lc_src`/`lc_dest` for local copies. -/
inductive LCSel where
  | remote
  | src
  | dest
deriving DecidableEq

def RDMAContextM.getBlock (rdma : RDMAContextM) (i : Nat) : RDMALocalBlock :=
  rdma.local_ram_blocks.block.getD i defaultLocalBlock

def RDMAContextM.setBlock (rdma : RDMAContextM) (i : Nat) (b : RDMALocalBlock) :
    RDMAContextM :=
  { rdma with local_ram_blocks :=
      { rdma.local_ram_blocks with block := rdma.local_ram_blocks.block.set i b } }

/-- Increment the selected local context's `nb_sent` (part_000:2475). -/
def RDMAContextM.lcInc (rdma : RDMAContextM) : LCSel → RDMAContextM
  | LCSel.remote => { rdma with lc_remote_nb_sent := rdma.lc_remote_nb_sent + 1 }
  | LCSel.src => { rdma with lc_src_nb_sent := rdma.lc_src_nb_sent + 1 }
  | LCSel.dest => { rdma with lc_dest_nb_sent := rdma.lc_dest_nb_sent + 1 }

/-- Decrement the selected local context's `nb_sent`, guarded against
underflow as in part_000:1768-1770. -/
def RDMAContextM.lcDec (rdma : RDMAContextM) : LCSel → RDMAContextM
  | LCSel.remote => { rdma with lc_remote_nb_sent := rdma.lc_remote_nb_sent - 1 }
  | LCSel.src => { rdma with lc_src_nb_sent := rdma.lc_src_nb_sent - 1 }
  | LCSel.dest => { rdma with lc_dest_nb_sent := rdma.lc_dest_nb_sent - 1 }

/-- `install_boundaries` (part_000:2207-2230): derive, from the cursor's
current range and its block, the chunk span, the host address, the chunk
index and the chunk start/end addresses. -/
def install_boundaries (block : RDMALocalBlock) (cc : RDMACurrentChunk) :
    RDMACurrentChunk :=
  let len := if block.is_ram_block then cc.current_length else block.length
  let chunks0 := len / (1 <<< RDMA_REG_CHUNK_SHIFT)
  let chunks :=
    if chunks0 ≠ 0 ∧ len % (1 <<< RDMA_REG_CHUNK_SHIFT) = 0 then chunks0 - 1 else chunks0
  let addr := block.local_host_addr + (cc.current_addr - block.offset)
  let chunk_idx := ram_chunk_index block.local_host_addr addr
  { cc with chunks := chunks, addr := addr, chunk_idx := chunk_idx,
            chunk_start := ram_chunk_start block chunk_idx,
            chunk_end := ram_chunk_end block (chunk_idx + chunks) }

/-- The state effect of `qemu_rdma_poll` draining one WRITE completion
(part_000:1743-1770): clear the chunk's transit bit and decrement the
in-flight counters. -/
def qemu_rdma_poll_write (rdma : RDMAContextM) (lc : LCSel) (bc : Nat × Nat) :
    RDMAContextM :=
  let block := rdma.getBlock bc.1
  let rdma1 := rdma.setBlock bc.1
    { block with transit_bitmap := block.transit_bitmap.set bc.2 false }
  ({ rdma1 with nb_sent := rdma1.nb_sent - 1 }).lcDec lc

/-- The wait loop of `qemu_rdma_write` (part_000:2281-2300): while the
chunk's transit bit is set, drain completions via `block_for_wrid`; each
drained completion is one oracle element.  Running out of oracle
completions models a failing `block_for_wrid` (negative return). -/
def wait_transit_clear (lc : LCSel) :
    List (Nat × Nat) → RDMAContextM → Nat → Nat →
    Int × RDMAContextM × List (Nat × Nat)
  | [], rdma, bidx, cidx =>
    if (rdma.getBlock bidx).transit_bitmap.getD cidx false = false then (0, rdma, [])
    else (-1, rdma, [])
  | bc :: rest, rdma, bidx, cidx =>
    if (rdma.getBlock bidx).transit_bitmap.getD cidx false = false then
      (0, rdma, bc :: rest)
    else wait_transit_clear lc rest (qemu_rdma_poll_write rdma lc bc) bidx cidx

/-- Oracle for one `qemu_rdma_write` flush: the completions the wait
loops can drain, the verdict of `buffer_find_nonzero_offset` on the
range, the result of the REGISTER/COMPRESS control exchange and its
returned rkey and peer host address, whether the local pin
(`qemu_rdma_register_and_get_keys`) succeeds, and the successive
`ibv_post_send` return values (0, ENOMEM = 12, or another errno). -/
structure WriteOracle where
  completions : List (Nat × Nat)
  chunkIsZero : Bool
  exchangeErr : Int
  regRkey : Nat
  regHostAddr : Nat
  lkeyOk : Bool
  postAttempts : List Int
deriving DecidableEq

/-- The flush body of `qemu_rdma_write` from the `retry` label on
(part_000:2266-2487), one recursive call per `ibv_post_send` attempt
(ENOMEM waits for a completion and jumps back to `retry`).  Returns the
C return value and the updated context and cursors. -/
def qemu_rdma_write_retry (lc : LCSel) (chunkIsZero : Bool) (exchangeErr : Int)
    (regRkey regHostAddr : Nat) (lkeyOk : Bool) :
    List Int → List (Nat × Nat) → RDMAContextM → RDMACurrentChunk →
    Option RDMACurrentChunk →
    Int × RDMAContextM × RDMACurrentChunk × Option RDMACurrentChunk
  | [], _comps, rdma, src, dest => (-1, rdma, src, dest)
  | aret :: restA, _comps, rdma, src, dest =>
    -- retry label (part_000:2266-2273): rebind the blocks, reinstall
    -- the chunk boundaries
    let src1 := install_boundaries (rdma.getBlock src.current_block_idx) src
    let dest1 := dest.map (fun d => install_boundaries (rdma.getBlock d.current_block_idx) d)
    -- wait until this chunk has no WRITE in flight (part_000:2281-2300)
    let w := wait_transit_clear lc _comps rdma src1.current_block_idx src1.chunk_idx
    if w.1 < 0 then (w.1, w.2.1, src1, dest1)
    else
      let rdma1 := w.2.1
      let comps1 := w.2.2
      let sblock := rdma1.getBlock src1.current_block_idx
      -- dynamic registration / compress (part_000:2302-2408)
      let reg : Except Int RDMAContextM :=
        if ¬ rdma1.pin_all ∨ ¬ sblock.is_ram_block then
          if sblock.remote_keys.getD src1.chunk_idx 0 = 0 then
            if sblock.is_ram_block ∧ chunkIsZero then
              -- the whole range is zero: send COMPRESS and return 1
              -- (or -EIO if the exchange fails); no RDMA WRITE is posted
              if exchangeErr < 0 then Except.error (-5) else Except.error 1
            else if dest1.isNone ∧ exchangeErr < 0 then Except.error exchangeErr
            else if ¬ lkeyOk then Except.error (-22)
            else Except.ok (if dest1.isNone then
                rdma1.setBlock src1.current_block_idx
                  { sblock with
                      remote_keys := sblock.remote_keys.set src1.chunk_idx regRkey,
                      remote_host_addr := regHostAddr }
              else rdma1)
          else if ¬ lkeyOk then Except.error (-22)
          else Except.ok rdma1
        else if ¬ lkeyOk then Except.error (-22)
        else Except.ok rdma1
      match reg with
      | Except.error r => (r, rdma1, src1, dest1)
      | Except.ok rdma2 =>
        -- post the WRITE work request (part_000:2449-2487)
        if aret = 12 then
          -- ENOMEM: drain one completion and goto retry (part_000:2451-2461)
          match comps1 with
          | [] => (-1, rdma2, src1, dest1)
          | bc :: more =>
            qemu_rdma_write_retry lc chunkIsZero exchangeErr regRkey regHostAddr lkeyOk
              restA more (qemu_rdma_poll_write rdma2 lc bc) src1 dest1
        else if 0 < aret then (-aret, rdma2, src1, dest1)
        else
          -- success: set_bit on transit, bump counters, reset cursors
          -- (part_000:2467-2485)
          let sblock2 := rdma2.getBlock src1.current_block_idx
          let rdma3 := rdma2.setBlock src1.current_block_idx
            { sblock2 with
                transit_bitmap := sblock2.transit_bitmap.set src1.chunk_idx true }
          let rdma4 := { rdma3 with nb_sent := rdma3.nb_sent + 1,
                                    total_writes := rdma3.total_writes + 1 }
          let rdma5 := rdma4.lcInc lc
          (0, rdma5,
           { src1 with current_length := 0, current_addr := 0 },
           dest1.map (fun d => { d with current_length := 0, current_addr := 0 }))

/-- `qemu_rdma_write` (part_000:2235-2488): push out any unwritten RDMA
operation of the `src` cursor.  If the cursor has accumulated no bytes
(`!src->current_length`) it returns 0 immediately (part_000:2253-2255),
before the `dest == src` normalisation, the local-context selection and
the `retry` body, so nothing in the transport state is touched. -/
def qemu_rdma_write (o : WriteOracle) (rdma : RDMAContextM) (src : RDMACurrentChunk)
    (dest : Option RDMACurrentChunk) :
    Int × RDMAContextM × RDMACurrentChunk × Option RDMACurrentChunk :=
  if src.current_length = 0 then (0, rdma, src, dest)
  else
    let dest1 := if dest = some src then none else dest
    let lc := if dest1.isSome then (if rdma.source then LCSel.src else LCSel.dest)
              else LCSel.remote
    qemu_rdma_write_retry lc o.chunkIsZero o.exchangeErr o.regRkey o.regHostAddr
      o.lkeyOk o.postAttempts o.completions rdma src dest1

/-- C9: calling the write-engine flush with a zero accumulated length
returns 0 immediately and leaves every piece of transport state — the
block registry with its transit bitmaps, the in-flight counters, and
both cursors — exactly as it was. -/
theorem qemu_rdma_write_zero_length (o : WriteOracle) (rdma : RDMAContextM)
    (src : RDMACurrentChunk) (dest : Option RDMACurrentChunk)
    (h : src.current_length = 0) :
    qemu_rdma_write o rdma src dest = (0, rdma, src, dest) := by
  simp [qemu_rdma_write, h]

/-- A concrete one-block context for the C9 witness. -/
def rdmaDemoCtx : RDMAContextM :=
  ⟨qemu_rdma_init_ram_blocks demoRam, false, true, 0, 0, 0, 0, 0⟩

/-- A cursor with no accumulated bytes. -/
def emptyCursor : RDMACurrentChunk := ⟨0, 0, 0, 0, 0, 0, 0, 0⟩

/-- Witness for C9: flushing an empty cursor on the demo context returns
0 with the state unchanged. -/
theorem qemu_rdma_write_zero_length_witness :
    emptyCursor.current_length = 0 ∧
    qemu_rdma_write ⟨[], false, 0, 0, 0, true, [0]⟩ rdmaDemoCtx emptyCursor none
      = (0, rdmaDemoCtx, emptyCursor, none) :=
  ⟨rfl, qemu_rdma_write_zero_length ⟨[], false, 0, 0, 0, true, [0]⟩ rdmaDemoCtx
    emptyCursor none rfl⟩

end RDMACore
